import Mathlib

/-!
Verification of the differential-backup subsystem of the day-tracker
application.

The development shallowly embeds the TypeScript sources:
* `src/services/fileHash.ts` (`hashDirectory`),
* `src/services/backupService.ts` (`detectChanges`, `getBackupStats`,
  `copyFileToBackup`, `reconstructBackup`, `generateBackupName`),
* `src/services/storage.ts` (`trackFile` backup bookkeeping,
  `calculateFolderSimilarity`).

Filesystem paths are modelled as lists of path segments (the sources build
paths by joining segments with `"/"`); the filesystem itself is an explicit
state value threaded through the stateful operations.  Machine `number`s
are modelled as `Int`/`Nat`; `null`-able columns as `Option`.
-/

namespace DayTracker

/-- `change_type` values of manifest entries and `FileChange` records
(`backupService.ts`). -/
inductive ChangeType where
  | added
  | modified
  | unchanged
  | deleted
deriving DecidableEq, Repr

/-- `source` values of manifest entries: where the bytes of a file live. -/
inductive Source where
  | current
  | parent
deriving DecidableEq, Repr

/-- A row of the `file_contents` table (`storage.ts`, interface
`FileContent`), restricted to the fields the verified operations read:
`relative_path`, `file_hash` and `file_size`.  The remaining metadata
columns (`id`, `folder_metadata_id`, `modified_at`, `created_at`,
`change_type`, `backup_file_path`) are never consulted by `detectChanges`
or `calculateFolderSimilarity`. -/
structure FileContent where
  relative_path : String
  file_hash : String
  file_size : Int
deriving DecidableEq, Repr

/-- A `FileChange` record (`backupService.ts`).  `file_size` is optional to
model `null`/missing sizes coming from database rows (`getBackupStats`
guards with `c.file_size || 0`). -/
structure FileChange where
  relative_path : String
  file_hash : String
  file_size : Option Int
  change_type : ChangeType
deriving DecidableEq, Repr

/-- Lookup in a JS `Map` built by `new Map(files.map(f =>
[f.relative_path, f]))`: the *last* entry with a given key wins. -/
def mapGet : List FileContent → String → Option FileContent
  | [], _ => none
  | f :: rest, k =>
    match mapGet rest k with
    | some g => some g
    | none => if f.relative_path = k then some f else none

/-- Body of the first loop of `BackupService.detectChanges`: classify one
current entry against the parent map as added/modified/unchanged. -/
def classifyCurrent (parentFiles : List FileContent) (current : FileContent) : FileChange :=
  match mapGet parentFiles current.relative_path with
  | none =>
      { relative_path := current.relative_path, file_hash := current.file_hash,
        file_size := some current.file_size, change_type := ChangeType.added }
  | some parent =>
      if parent.file_hash ≠ current.file_hash then
        { relative_path := current.relative_path, file_hash := current.file_hash,
          file_size := some current.file_size, change_type := ChangeType.modified }
      else
        { relative_path := current.relative_path, file_hash := current.file_hash,
          file_size := some current.file_size, change_type := ChangeType.unchanged }

/-- Body of the second loop of `BackupService.detectChanges`: a parent
entry absent from the current map yields a `deleted` record. -/
def deletedFor (currentFiles : List FileContent) (parent : FileContent) : Option FileChange :=
  if (mapGet currentFiles parent.relative_path).isSome then none
  else
    some { relative_path := parent.relative_path, file_hash := parent.file_hash,
           file_size := some parent.file_size, change_type := ChangeType.deleted }

/-- `BackupService.detectChanges` (`backupService.ts`): classify every
current entry against the parent map as added/modified/unchanged, then emit
a deleted record for every parent entry absent from the current map. -/
def detectChanges (currentFiles parentFiles : List FileContent) : List FileChange :=
  currentFiles.map (classifyCurrent parentFiles) ++
    parentFiles.filterMap (deletedFor currentFiles)

/-- The record of per-change-type counts and total size returned by
`BackupService.getBackupStats`. -/
structure BackupStats where
  added : Nat
  modified : Nat
  unchanged : Nat
  deleted : Nat
  totalSize : Int
deriving DecidableEq, Repr

/-- `BackupService.getBackupStats` (`backupService.ts`): four `filter`
passes counting each change type and a `reduce` summing `c.file_size || 0`. -/
def getBackupStats (changes : List FileChange) : BackupStats :=
  { added := (changes.filter fun c => c.change_type = ChangeType.added).length
    modified := (changes.filter fun c => c.change_type = ChangeType.modified).length
    unchanged := (changes.filter fun c => c.change_type = ChangeType.unchanged).length
    deleted := (changes.filter fun c => c.change_type = ChangeType.deleted).length
    totalSize := changes.foldl (fun sum c => sum + c.file_size.getD 0) 0 }

section MapGetLemmas

lemma mapGet_isSome_iff (l : List FileContent) (k : String) :
    (mapGet l k).isSome ↔ ∃ f ∈ l, f.relative_path = k := by
  induction l with
  | nil => simp [mapGet]
  | cons f rest ih =>
    simp only [mapGet]
    cases h : mapGet rest k with
    | some g =>
      simp only [Option.isSome_some, true_iff]
      have hs : (mapGet rest k).isSome := by simp [h]
      obtain ⟨g', hg', hk⟩ := ih.mp hs
      exact ⟨g', List.mem_cons_of_mem _ hg', hk⟩
    | none =>
      by_cases hf : f.relative_path = k
      · simp only [if_pos hf, Option.isSome_some, true_iff]
        exact ⟨f, List.mem_cons_self _ _, hf⟩
      · simp only [if_neg hf, Option.isSome_none, Bool.false_eq_true, false_iff]
        rintro ⟨g, hg, hk⟩
        rcases List.mem_cons.mp hg with rfl | hg'
        · exact hf hk
        · have hs : (mapGet rest k).isSome := ih.mpr ⟨g, hg', hk⟩
          rw [h] at hs; simp at hs

lemma mapGet_eq_none_of_not_mem (l : List FileContent) (k : String)
    (h : ∀ f ∈ l, f.relative_path ≠ k) : mapGet l k = none := by
  cases hm : mapGet l k with
  | none => rfl
  | some g =>
    have : (mapGet l k).isSome := by simp [hm]
    obtain ⟨f, hf, hk⟩ := (mapGet_isSome_iff l k).mp this
    exact absurd hk (h f hf)

lemma mapGet_eq_some_of_nodup (l : List FileContent)
    (hnd : (l.map FileContent.relative_path).Nodup) (f : FileContent) (hf : f ∈ l) :
    mapGet l f.relative_path = some f := by
  induction l with
  | nil => cases hf
  | cons g rest ih =>
    simp only [List.map_cons, List.nodup_cons] at hnd
    rcases List.mem_cons.mp hf with rfl | hmem
    · have hrest : mapGet rest f.relative_path = none := by
        apply mapGet_eq_none_of_not_mem
        intro g' hg' hk
        exact hnd.1 (hk ▸ List.mem_map_of_mem FileContent.relative_path hg')
      simp [mapGet, hrest]
    · have := ih hnd.2 hmem
      simp [mapGet, this]

end MapGetLemmas

section DetectChangesLemmas

lemma classifyCurrent_path (par : List FileContent) (c : FileContent) :
    (classifyCurrent par c).relative_path = c.relative_path := by
  unfold classifyCurrent
  cases mapGet par c.relative_path with
  | none => rfl
  | some p => by_cases h : p.file_hash ≠ c.file_hash <;> simp [h]

lemma deletedFor_paths (cur par : List FileContent) :
    (par.filterMap (deletedFor cur)).map FileChange.relative_path =
      (par.filter fun p => ¬ (mapGet cur p.relative_path).isSome).map
        FileContent.relative_path := by
  induction par with
  | nil => rfl
  | cons p rest ih =>
    by_cases h : (mapGet cur p.relative_path).isSome
    · have hd : deletedFor cur p = none := by simp [deletedFor, h]
      rw [List.filterMap_cons, hd, ih, List.filter_cons, if_neg (by simp [h])]
    · have hd : deletedFor cur p =
          some ⟨p.relative_path, p.file_hash, some p.file_size, ChangeType.deleted⟩ := by
        simp [deletedFor, h]
      rw [List.filterMap_cons, hd, List.filter_cons, if_pos (by simp [h])]
      simp [ih]

lemma detectChanges_paths (cur par : List FileContent) :
    (detectChanges cur par).map FileChange.relative_path =
      cur.map FileContent.relative_path ++
        ((par.filter fun p => ¬ (mapGet cur p.relative_path).isSome).map
          FileContent.relative_path) := by
  simp only [detectChanges, List.map_append]
  congr 1
  · rw [List.map_map]
    apply List.map_congr_left
    intro c _
    exact classifyCurrent_path par c
  · exact deletedFor_paths cur par

lemma mem_detectChanges_left (cur par : List FileContent) (c : FileContent) (hc : c ∈ cur) :
    classifyCurrent par c ∈ detectChanges cur par :=
  List.mem_append_left _ (List.mem_map_of_mem _ hc)

end DetectChangesLemmas

/-- C1 (amended with pairwise-distinct relative paths, as holds for
hasher-produced listings): `detectChanges` classifies each current entry as
added / modified / unchanged against the parent map, emits a deleted entry
for each parent path absent from the current map, and its output covers
the union of both path sets exactly once each. -/
theorem detectChanges_classifies_and_covers
    (cur par : List FileContent)
    (hc : (cur.map FileContent.relative_path).Nodup)
    (hp : (par.map FileContent.relative_path).Nodup) :
    ((detectChanges cur par).map FileChange.relative_path).Nodup ∧
    (∀ s : String, s ∈ (detectChanges cur par).map FileChange.relative_path ↔
        s ∈ cur.map FileContent.relative_path ∨ s ∈ par.map FileContent.relative_path) ∧
    (∀ c ∈ cur,
      ((∀ p ∈ par, p.relative_path ≠ c.relative_path) →
        (⟨c.relative_path, c.file_hash, some c.file_size, ChangeType.added⟩ : FileChange) ∈
          detectChanges cur par) ∧
      (∀ p ∈ par, p.relative_path = c.relative_path → p.file_hash ≠ c.file_hash →
        (⟨c.relative_path, c.file_hash, some c.file_size, ChangeType.modified⟩ : FileChange) ∈
          detectChanges cur par) ∧
      (∀ p ∈ par, p.relative_path = c.relative_path → p.file_hash = c.file_hash →
        (⟨c.relative_path, c.file_hash, some c.file_size, ChangeType.unchanged⟩ : FileChange) ∈
          detectChanges cur par)) ∧
    (∀ p ∈ par, (∀ c ∈ cur, c.relative_path ≠ p.relative_path) →
      (⟨p.relative_path, p.file_hash, some p.file_size, ChangeType.deleted⟩ : FileChange) ∈
        detectChanges cur par) := by
  refine ⟨?_, ?_, ?_, ?_⟩
  · rw [detectChanges_paths]
    refine List.Nodup.append hc ?_ ?_
    · exact hp.sublist (List.Sublist.map _ (List.filter_sublist par))
    · intro s hs hs'
      obtain ⟨c, hcmem, rfl⟩ := List.mem_map.mp hs
      obtain ⟨p, hpmem, hpeq⟩ := List.mem_map.mp hs'
      have hfil := List.of_mem_filter hpmem
      have hsome : (mapGet cur p.relative_path).isSome :=
        (mapGet_isSome_iff cur p.relative_path).mpr ⟨c, hcmem, hpeq.symm⟩
      simp [hsome] at hfil
  · intro s
    rw [detectChanges_paths, List.mem_append]
    constructor
    · rintro (h | h)
      · exact Or.inl h
      · obtain ⟨p, hpmem, rfl⟩ := List.mem_map.mp h
        exact Or.inr (List.mem_map_of_mem _ (List.mem_of_mem_filter hpmem))
    · rintro (h | h)
      · exact Or.inl h
      · by_cases hincur : s ∈ cur.map FileContent.relative_path
        · exact Or.inl hincur
        · obtain ⟨p, hpmem, rfl⟩ := List.mem_map.mp h
          refine Or.inr (List.mem_map_of_mem _ (List.mem_filter.mpr ⟨hpmem, ?_⟩))
          simp only [decide_eq_true_eq]
          intro habs
          obtain ⟨c, hcmem, hceq⟩ := (mapGet_isSome_iff cur p.relative_path).mp habs
          exact hincur (hceq ▸ List.mem_map_of_mem _ hcmem)
  · intro c hcmem
    refine ⟨?_, ?_, ?_⟩
    · intro habs
      have hnone : mapGet par c.relative_path = none :=
        mapGet_eq_none_of_not_mem _ _ habs
      have key : classifyCurrent par c =
          ⟨c.relative_path, c.file_hash, some c.file_size, ChangeType.added⟩ := by
        unfold classifyCurrent; rw [hnone]
      exact key ▸ mem_detectChanges_left cur par c hcmem
    · intro p hpmem hpeq hhash
      have hsome : mapGet par c.relative_path = some p := by
        rw [← hpeq]; exact mapGet_eq_some_of_nodup par hp p hpmem
      have key : classifyCurrent par c =
          ⟨c.relative_path, c.file_hash, some c.file_size, ChangeType.modified⟩ := by
        unfold classifyCurrent; rw [hsome]; simp [hhash]
      exact key ▸ mem_detectChanges_left cur par c hcmem
    · intro p hpmem hpeq hhash
      have hsome : mapGet par c.relative_path = some p := by
        rw [← hpeq]; exact mapGet_eq_some_of_nodup par hp p hpmem
      have key : classifyCurrent par c =
          ⟨c.relative_path, c.file_hash, some c.file_size, ChangeType.unchanged⟩ := by
        unfold classifyCurrent; rw [hsome]; simp [hhash]
      exact key ▸ mem_detectChanges_left cur par c hcmem
  · intro p hpmem habs
    have hnone : mapGet cur p.relative_path = none := by
      apply mapGet_eq_none_of_not_mem
      intro c hcmem
      exact habs c hcmem
    refine List.mem_append_right _ (List.mem_filterMap.mpr ⟨p, hpmem, ?_⟩)
    simp [deletedFor, hnone]

/-- C1 counterexample to the claim as stated: over arbitrary `FileEntry`
lists (not required to have distinct relative paths) the output of
`detectChanges` can mention a path twice, so "one entry per path, no
duplicates" fails for the pair
`([{a.txt,h1,1}, {a.txt,h2,2}], [])`. -/
theorem detectChanges_duplicate_path_counterexample :
    (detectChanges [⟨"a.txt", "h1", 1⟩, ⟨"a.txt", "h2", 2⟩] []).map FileChange.relative_path =
      ["a.txt", "a.txt"] ∧
    ¬ ((detectChanges [⟨"a.txt", "h1", 1⟩, ⟨"a.txt", "h2", 2⟩] []).map
        FileChange.relative_path).Nodup := by
  constructor
  · rfl
  · intro h
    rw [show (detectChanges [⟨"a.txt", "h1", 1⟩, ⟨"a.txt", "h2", 2⟩] []).map
        FileChange.relative_path = ["a.txt", "a.txt"] from rfl] at h
    simp at h

/-- Concrete current listing for the C1 witness. -/
def c1cur : List FileContent := [⟨"a.txt", "h1", 1⟩, ⟨"c.txt", "h3", 3⟩]

/-- Concrete parent listing for the C1 witness. -/
def c1par : List FileContent := [⟨"b.txt", "h2", 2⟩, ⟨"c.txt", "h4", 4⟩]

/-- Witness for `detectChanges_classifies_and_covers` at a concrete pair of
listings with distinct relative paths. -/
theorem detectChanges_classifies_and_covers_witness :
    (c1cur.map FileContent.relative_path).Nodup ∧
    (c1par.map FileContent.relative_path).Nodup ∧
    (((detectChanges c1cur c1par).map FileChange.relative_path).Nodup ∧
    (∀ s : String, s ∈ (detectChanges c1cur c1par).map FileChange.relative_path ↔
        s ∈ c1cur.map FileContent.relative_path ∨ s ∈ c1par.map FileContent.relative_path) ∧
    (∀ c ∈ c1cur,
      ((∀ p ∈ c1par, p.relative_path ≠ c.relative_path) →
        (⟨c.relative_path, c.file_hash, some c.file_size, ChangeType.added⟩ : FileChange) ∈
          detectChanges c1cur c1par) ∧
      (∀ p ∈ c1par, p.relative_path = c.relative_path → p.file_hash ≠ c.file_hash →
        (⟨c.relative_path, c.file_hash, some c.file_size, ChangeType.modified⟩ : FileChange) ∈
          detectChanges c1cur c1par) ∧
      (∀ p ∈ c1par, p.relative_path = c.relative_path → p.file_hash = c.file_hash →
        (⟨c.relative_path, c.file_hash, some c.file_size, ChangeType.unchanged⟩ : FileChange) ∈
          detectChanges c1cur c1par)) ∧
    (∀ p ∈ c1par, (∀ c ∈ c1cur, c.relative_path ≠ p.relative_path) →
      (⟨p.relative_path, p.file_hash, some p.file_size, ChangeType.deleted⟩ : FileChange) ∈
        detectChanges c1cur c1par)) :=
  ⟨by decide, by decide,
    detectChanges_classifies_and_covers c1cur c1par (by decide) (by decide)⟩

section BackupStatsLemmas

lemma foldl_add_getD (changes : List FileChange) (a : Int) :
    changes.foldl (fun sum c => sum + c.file_size.getD 0) a =
      a + (changes.map fun c => c.file_size.getD 0).sum := by
  induction changes generalizing a with
  | nil => simp
  | cons c rest ih => simp [List.foldl_cons, ih, add_assoc]

end BackupStatsLemmas

/-- C10: the four change-type counts returned by `getBackupStats` partition
the input (their sum is the input length), and `totalSize` is the sum of
the entries' `file_size` values with `null`/missing sizes counted as `0`. -/
theorem getBackupStats_partition_and_total (changes : List FileChange) :
    (getBackupStats changes).added + (getBackupStats changes).modified +
        (getBackupStats changes).unchanged + (getBackupStats changes).deleted =
      changes.length ∧
    (getBackupStats changes).totalSize =
      (changes.map fun c => c.file_size.getD 0).sum := by
  constructor
  · simp only [getBackupStats]
    induction changes with
    | nil => rfl
    | cons c rest ih =>
      cases h : c.change_type <;>
        simp only [List.filter_cons, h, List.length_cons] <;> simp <;> omega
  · simp only [getBackupStats]
    simpa using foldl_add_getD changes 0

/-- `StorageService.calculateFolderSimilarity` (`storage.ts`): percentage
of matching distinct file hashes between two folders' `file_contents`
rows, relative to the larger distinct-hash set; returns `0` early when
either row list is empty.  The JS `Set` of hashes is modelled as a
deduplicated list (only its cardinality and membership are consumed). -/
def calculateFolderSimilarity (contents1 contents2 : List FileContent) : ℚ :=
  if contents1.length = 0 ∨ contents2.length = 0 then 0
  else
    let hashes1 := (contents1.map FileContent.file_hash).dedup
    let hashes2 := (contents2.map FileContent.file_hash).dedup
    let matchCount := (hashes1.filter fun h => h ∈ hashes2).length
    let maxSize := max hashes1.length hashes2.length
    (matchCount : ℚ) / (maxSize : ℚ) * 100

/-- C9: `calculateFolderSimilarity` equals
`matchingHashCount / max(|hashesA|, |hashesB|) * 100` over the distinct
file hashes of the two folders (with the empty/empty corner agreeing under
the `0 / 0 = 0` convention), and the result always lies between 0 and 100. -/
theorem calculateFolderSimilarity_formula_and_range (c1 c2 : List FileContent) :
    calculateFolderSimilarity c1 c2 =
      (((c1.map FileContent.file_hash).dedup.filter
          (fun h => h ∈ (c2.map FileContent.file_hash).dedup)).length : ℚ) /
        ((max (c1.map FileContent.file_hash).dedup.length
          (c2.map FileContent.file_hash).dedup.length : Nat) : ℚ) * 100 ∧
    0 ≤ calculateFolderSimilarity c1 c2 ∧
    calculateFolderSimilarity c1 c2 ≤ 100 := by
  have hformula : calculateFolderSimilarity c1 c2 =
      (((c1.map FileContent.file_hash).dedup.filter
          (fun h => h ∈ (c2.map FileContent.file_hash).dedup)).length : ℚ) /
        ((max (c1.map FileContent.file_hash).dedup.length
          (c2.map FileContent.file_hash).dedup.length : Nat) : ℚ) * 100 := by
    unfold calculateFolderSimilarity
    by_cases h : c1.length = 0 ∨ c2.length = 0
    · rcases h with h1 | h2
      · have : c1 = [] := List.length_eq_zero.mp h1
        subst this
        simp
      · have : c2 = [] := List.length_eq_zero.mp h2
        subst this
        simp
    · rw [if_neg h]
  refine ⟨hformula, ?_, ?_⟩
  · rw [hformula]
    positivity
  · rw [hformula]
    set m := ((c1.map FileContent.file_hash).dedup.filter
        (fun h => h ∈ (c2.map FileContent.file_hash).dedup)).length with hm
    set M := max (c1.map FileContent.file_hash).dedup.length
        (c2.map FileContent.file_hash).dedup.length with hM
    have hmM : m ≤ M := by
      calc m ≤ (c1.map FileContent.file_hash).dedup.length := List.length_filter_le _ _
        _ ≤ M := le_max_left _ _
    rcases Nat.eq_zero_or_pos M with h0 | hpos
    · have hm0 : m = 0 := Nat.le_zero.mp (h0 ▸ hmM)
      rw [hm0, h0]
      norm_num
    · have hq : ((m : ℚ) / (M : ℚ)) ≤ 1 := by
        rw [div_le_one (by exact_mod_cast hpos)]
        exact_mod_cast hmM
      calc (m : ℚ) / (M : ℚ) * 100 ≤ 1 * 100 := by
            apply mul_le_mul_of_nonneg_right hq (by norm_num)
        _ = 100 := by norm_num

/-- One file of a directory tree as enumerated by `walkDirectory`
(`fileHash.ts`): relative path plus raw byte content.  The list order of a
`List TreeFile` models the filesystem enumeration order. -/
structure TreeFile where
  relativePath : String
  content : List Nat
deriving DecidableEq, Repr

/-- `IndividualFileInfo` (`fileHash.ts`) without `modifiedAt` (which comes
from an external `stat` call and never feeds into any hash). -/
structure IndividualFileInfo where
  relativePath : String
  hash : String
  size : Nat
deriving DecidableEq, Repr

/-- `FileHashResult` (`fileHash.ts`) as returned by `hashDirectory`. -/
structure FileHashResult where
  hash : String
  size : Nat
  fileCount : Nat
  files : List IndividualFileInfo
deriving DecidableEq, Repr

/-- `hashFile` (`fileHash.ts`): SHA-256 digest of the file's bytes and its
size.  The SHA-256 primitive (`crypto.subtle.digest`, external to the
repository) is the parameter `sha`. -/
def hashFile (sha : List Nat → String) (f : TreeFile) : String × Nat :=
  (sha f.content, f.content.length)

/-- UTF-8 bytes of a string (`TextEncoder.encode`). -/
def strToBytes (s : String) : List Nat :=
  s.toUTF8.toList.map UInt8.toNat

instance : DecidableRel (fun a b : TreeFile => a.relativePath ≤ b.relativePath) :=
  fun a b => inferInstanceAs (Decidable (a.relativePath ≤ b.relativePath))

/-- `hashDirectory` (`fileHash.ts`): sort the enumerated files by relative
path (`localeCompare`, modelled by the string order), hash each file, join
the `"${relativePath}:${hash}"` strings with `"|"` and hash the combined
string. -/
def hashDirectory (sha : List Nat → String) (allFiles : List TreeFile) : FileHashResult :=
  let sorted := List.insertionSort (fun a b => a.relativePath ≤ b.relativePath) allFiles
  let fileHashes := sorted.map fun f => f.relativePath ++ ":" ++ (hashFile sha f).1
  let individualFiles : List IndividualFileInfo :=
    sorted.map fun f => ⟨f.relativePath, (hashFile sha f).1, (hashFile sha f).2⟩
  let totalSize := (sorted.map fun f => (hashFile sha f).2).sum
  let combined := String.intercalate "|" fileHashes
  { hash := sha (strToBytes combined), size := totalSize,
    fileCount := sorted.length, files := individualFiles }

section SortLemmas

lemma eq_of_perm_of_sorted_on_key {α : Type} (key : α → String) :
    ∀ l₁ l₂ : List α, l₁.Perm l₂ →
      l₁.Sorted (fun a b => key a ≤ key b) →
      l₂.Sorted (fun a b => key a ≤ key b) →
      (l₁.map key).Nodup → l₁ = l₂ := by
  intro l₁
  induction l₁ with
  | nil =>
    intro l₂ hp _ _ _
    exact hp.nil_eq
  | cons a t ih =>
    intro l₂ hp hs₁ hs₂ hnd
    cases l₂ with
    | nil => simpa using hp.eq_nil
    | cons b t₂ =>
      have hs₁' := List.sorted_cons.mp hs₁
      have hs₂' := List.sorted_cons.mp hs₂
      have hnd' : key a ∉ t.map key ∧ (t.map key).Nodup := by
        simpa [List.nodup_cons] using hnd
      have hab : a = b := by
        have hamem : a ∈ b :: t₂ := hp.mem_iff.mp (List.mem_cons_self a t)
        rcases List.mem_cons.mp hamem with h | hat₂
        · exact h
        · have hba : key b ≤ key a := hs₂'.1 a hat₂
          have hbmem : b ∈ a :: t := hp.mem_iff.mpr (List.mem_cons_self b t₂)
          rcases List.mem_cons.mp hbmem with h | hbt
          · exact h.symm
          · have hab' : key a ≤ key b := hs₁'.1 b hbt
            exact absurd (le_antisymm hab' hba ▸ List.mem_map_of_mem key hbt) hnd'.1
      subst hab
      rw [ih t₂ hp.cons_inv hs₁'.2 hs₂'.2 hnd'.2]

end SortLemmas

/-- C3: `hashDirectory` is deterministic in the tree content — for any two
enumerations of the same set of `(relativePath, content)` files (a
directory tree has pairwise-distinct relative paths), the directory hash
is identical regardless of enumeration order, for every hash primitive. -/
theorem hashDirectory_deterministic (sha : List Nat → String)
    (t1 t2 : List TreeFile) (hperm : t1.Perm t2)
    (hnd : (t1.map TreeFile.relativePath).Nodup) :
    (hashDirectory sha t1).hash = (hashDirectory sha t2).hash := by
  have hsorted :
      List.insertionSort (fun a b => a.relativePath ≤ b.relativePath) t1 =
        List.insertionSort (fun a b => a.relativePath ≤ b.relativePath) t2 := by
    haveI : IsTotal TreeFile (fun a b => a.relativePath ≤ b.relativePath) :=
      ⟨fun a b => le_total a.relativePath b.relativePath⟩
    haveI : IsTrans TreeFile (fun a b => a.relativePath ≤ b.relativePath) :=
      ⟨fun _ _ _ hab hbc => le_trans hab hbc⟩
    apply eq_of_perm_of_sorted_on_key TreeFile.relativePath
    · exact (List.perm_insertionSort _ t1).trans
        (hperm.trans (List.perm_insertionSort _ t2).symm)
    · exact List.sorted_insertionSort _ t1
    · exact List.sorted_insertionSort _ t2
    · exact (((List.perm_insertionSort _ t1).map TreeFile.relativePath).nodup_iff).mpr hnd
  unfold hashDirectory
  rw [hsorted]

/-- A toy stand-in digest used to instantiate the hash parameter in the
C3 witness. -/
def c3sha (bytes : List Nat) : String :=
  toString (bytes.foldl (fun a b => a * 31 + b) 7)

/-- Concrete enumeration of a two-file tree for the C3 witness. -/
def c3t1 : List TreeFile := [⟨"b.txt", [119, 111]⟩, ⟨"a.txt", [104, 105]⟩]

/-- The same tree enumerated in the opposite order. -/
def c3t2 : List TreeFile := [⟨"a.txt", [104, 105]⟩, ⟨"b.txt", [119, 111]⟩]

/-- Witness for `hashDirectory_deterministic` at a concrete pair of
enumerations of the same tree. -/
theorem hashDirectory_deterministic_witness :
    c3t1.Perm c3t2 ∧ (c3t1.map TreeFile.relativePath).Nodup ∧
    (hashDirectory c3sha c3t1).hash = (hashDirectory c3sha c3t2).hash :=
  ⟨by decide, by decide,
    hashDirectory_deterministic c3sha c3t1 c3t2 (by decide) (by decide)⟩

/-- A filesystem path, modelled as its `"/"`-separated segments (the
sources build every path by joining segments with `"/"`). -/
abbrev Path := List String

/-- An entry of `BackupManifest.files` (`backupService.ts`).  The
`relative_path` is a (possibly nested) path below the backup root. -/
structure ManifestFile where
  relative_path : Path
  file_hash : String
  file_size : Int
  change_type : ChangeType
  source : Source
deriving DecidableEq, Repr

/-- `BackupManifest` (`backupService.ts`). -/
structure BackupManifest where
  backup_name : String
  created_at : String
  project_name : String
  parent_backup : Option String
  is_full_backup : Bool
  file_count : Int
  total_size : Int
  files : List ManifestFile
deriving DecidableEq, Repr

/-- Explicit filesystem state threaded through the stateful backup
operations: the existing directories, the regular files with their bytes,
and the parsed `manifest.json` of each backup directory (keyed by the full
manifest path; `readManifest` reads and JSON-parses that file, so the
model stores the parsed value). -/
structure FS where
  dirs : List Path
  files : List (Path × List Nat)
  manifests : List (Path × BackupManifest)
deriving DecidableEq, Repr

/-- `readFile`: the bytes of the regular file at `p`, if any. -/
def FS.readFileBytes (fs : FS) (p : Path) : Option (List Nat) :=
  (fs.files.find? fun e => e.1 == p).map Prod.snd

/-- `exists` from `@tauri-apps/plugin-fs`: true when `p` is an existing
directory or regular file. -/
def FS.existsPath (fs : FS) (p : Path) : Bool :=
  fs.dirs.contains p || fs.files.any fun e => e.1 == p

/-- `mkdir(p, { recursive: true })`: record the directory (never fails on
an already-existing directory). -/
def FS.mkdirRec (fs : FS) (p : Path) : FS :=
  { fs with dirs := p :: fs.dirs }

/-- `writeFile`: create or overwrite the regular file at `p`. -/
def FS.writeFileBytes (fs : FS) (p : Path) (content : List Nat) : FS :=
  { fs with files := (p, content) :: fs.files.filter fun e => e.1 != p }

/-- `copyFile` from `@tauri-apps/plugin-fs`: read the source, write the
destination; fails when the source is not a readable regular file. -/
def FS.copyFileFS (fs : FS) (src dst : Path) : Option FS :=
  match fs.readFileBytes src with
  | none => none
  | some content => some (fs.writeFileBytes dst content)

/-- `BackupService.readManifest` (`backupService.ts`): the parsed
`{backupPath}/manifest.json`, or `none` when missing/corrupt. -/
def FS.readManifest (fs : FS) (backupPath : Path) : Option BackupManifest :=
  (fs.manifests.find? fun e => e.1 == backupPath ++ ["manifest.json"]).map Prod.snd

/-- Result of `reconstructBackup`: the materialized path, the filesystem
after the operation, and the `filesReconstructed` / `filesSkipped`
counters (both `0` on the already-reconstructed early return, where the
source performs no copy at all). -/
structure ReconResult where
  path : Path
  fs : FS
  filesReconstructed : Nat
  filesSkipped : Nat
deriving DecidableEq, Repr

/-- Loop body of `BackupService.reconstructBackup` for one manifest entry:
skip deleted entries, locate the bytes in this backup's own `files/` store
(`source == current`) or the immediate parent's (`source == parent`), and
copy them to `RECONSTRUCTED/{relative_path}` after creating the
destination directory. -/
def reconstructStep (backupPath : Path) (parentBackupPath : Option Path)
    (acc : FS × Nat × Nat) (file : ManifestFile) : FS × Nat × Nat :=
  let (fs, nrec, nskip) := acc
  if file.change_type = ChangeType.deleted then (fs, nrec, nskip + 1)
  else
    let sourceFilePath? : Option Path :=
      match file.source with
      | Source.current => some (backupPath ++ ["files", file.file_hash])
      | Source.parent => parentBackupPath.map fun p => p ++ ["files", file.file_hash]
    match sourceFilePath? with
    | none => (fs, nrec, nskip + 1)
    | some sourceFilePath =>
      if fs.existsPath sourceFilePath then
        let destPath := backupPath ++ ["RECONSTRUCTED"] ++ file.relative_path
        let destDir := destPath.dropLast
        let fs1 := fs.mkdirRec destDir
        match fs1.copyFileFS sourceFilePath destPath with
        | some fs2 => (fs2, nrec + 1, nskip)
        | none => (fs1, nrec, nskip + 1)
      else (fs, nrec, nskip + 1)

/-- `BackupService.reconstructBackup` (`backupService.ts`): read the
manifest, return the cached `RECONSTRUCTED` directory when it already
exists, otherwise materialize every non-deleted manifest entry from its
own or the immediate parent's content store. -/
def reconstructBackup (fs : FS) (storagePath : Path) (backupName : String) :
    Except String ReconResult :=
  let backupPath := storagePath ++ ["backups", backupName]
  let reconstructedPath := backupPath ++ ["RECONSTRUCTED"]
  match fs.readManifest backupPath with
  | none => Except.error "Manifest not found"
  | some manifest =>
    if fs.existsPath reconstructedPath then
      Except.ok ⟨reconstructedPath, fs, 0, 0⟩
    else
      let fs1 := fs.mkdirRec reconstructedPath
      let parentBackupPath := manifest.parent_backup.map fun p =>
        storagePath ++ ["backups", p]
      let res := manifest.files.foldl (reconstructStep backupPath parentBackupPath) (fs1, 0, 0)
      Except.ok ⟨reconstructedPath, res.1, res.2.1, res.2.2⟩

/-- `BackupService.copyFileToBackup` (`backupService.ts`): content-addressed
store write at `{backupPath}/files/{fileHash}`, skipped when the source is
missing or the destination already exists (intra-backup deduplication);
a read failure after the checks propagates as an error. -/
def copyFileToBackup (fs : FS) (sourcePath : Path) (fileHash : String) (backupPath : Path) :
    Except String (FS × Path) :=
  let destPath := backupPath ++ ["files", fileHash]
  if ¬ fs.existsPath sourcePath then Except.ok (fs, destPath)
  else if fs.existsPath destPath then Except.ok (fs, destPath)
  else
    match fs.readFileBytes sourcePath with
    | some content => Except.ok (fs.writeFileBytes destPath content, destPath)
    | none => Except.error "copy error"

/-- The location `reconstructBackup` fetches a manifest entry's bytes
from: this backup's own content store for `source == current`, the
immediate parent backup's content store for `source == parent`. -/
def sourcePathFor (storagePath : Path) (backupName : String)
    (parentBackup : Option String) (f : ManifestFile) : Option Path :=
  match f.source with
  | Source.current => some (storagePath ++ ["backups", backupName, "files", f.file_hash])
  | Source.parent => parentBackup.map fun p =>
      storagePath ++ ["backups", p, "files", f.file_hash]

section FSLemmas

lemma FS.copyFileFS_eq_some {fs fs' : FS} {src dst : Path}
    (h : fs.copyFileFS src dst = some fs') :
    ∃ c, fs.readFileBytes src = some c ∧ fs' = fs.writeFileBytes dst c := by
  unfold FS.copyFileFS at h
  cases hr : fs.readFileBytes src with
  | none => rw [hr] at h; cases h
  | some c => rw [hr] at h; cases h; exact ⟨c, rfl, rfl⟩

lemma find?_key_filter_ne (l : List (Path × List Nat)) (p q : Path) (hne : q ≠ p) :
    ((l.filter fun e => e.1 != p).find? fun e => e.1 == q) =
      l.find? fun e => e.1 == q := by
  induction l with
  | nil => rfl
  | cons e rest ih =>
    by_cases hep : e.1 = p
    · have h1 : (e.1 != p) = false := by simp [hep]
      have h2 : (e.1 == q) = false := by simp [hep]; exact fun h => hne h.symm
      rw [List.filter_cons, h1]
      simp only [Bool.false_eq_true, if_false]
      rw [List.find?_cons, h2, ih]
    · have h1 : (e.1 != p) = true := by simp [hep]
      rw [List.filter_cons, h1]
      simp only [if_true]
      by_cases heq : e.1 = q
      · rw [List.find?_cons, List.find?_cons]
        simp [heq]
      · have h2 : (e.1 == q) = false := by simp [heq]
        rw [List.find?_cons, h2, List.find?_cons, h2, ih]

lemma readFileBytes_writeFileBytes_ne (fs : FS) (p q : Path) (c : List Nat)
    (hne : q ≠ p) :
    (fs.writeFileBytes p c).readFileBytes q = fs.readFileBytes q := by
  unfold FS.writeFileBytes FS.readFileBytes
  dsimp only
  rw [List.find?_cons]
  have h2 : (p == q) = false := by simp; exact fun h => hne h.symm
  rw [h2]
  simp only [Bool.false_eq_true, if_false]
  rw [find?_key_filter_ne fs.files p q hne]

lemma reconWrite_ne_store (sp : Path) (bn X h : String) (rest : Path) :
    sp ++ ["backups", bn, "RECONSTRUCTED"] ++ rest ≠
      sp ++ ["backups", X, "files", h] := by
  intro heq
  rw [List.append_assoc] at heq
  have heq' := List.append_cancel_left heq
  injection heq' with h1 h2
  injection h2 with h3 h4
  injection h4 with h5 h6
  exact absurd h5 (by decide)

end FSLemmas

/-- A file materialized by `reconstructBackup` conforms to the manifest:
it comes from a non-deleted manifest entry, sits at
`RECONSTRUCTED/{relative_path}`, and its bytes were fetched from the
entry's content store (`sourcePathFor`) in the pre-call filesystem. -/
def MaterializedFrom (storagePath : Path) (backupName : String)
    (parentBackup : Option String) (mfiles : List ManifestFile) (fs0 : FS)
    (p : Path) (c : List Nat) : Prop :=
  ∃ f ∈ mfiles, f.change_type ≠ ChangeType.deleted ∧
    p = storagePath ++ ["backups", backupName, "RECONSTRUCTED"] ++ f.relative_path ∧
    ∃ src, sourcePathFor storagePath backupName parentBackup f = some src ∧
      fs0.readFileBytes src = some c

section ReconstructLemmas

lemma reconstructStep_manifests (bp : Path) (pp : Option Path)
    (acc : FS × Nat × Nat) (f : ManifestFile) :
    ((reconstructStep bp pp acc f).1).manifests = acc.1.manifests := by
  rcases acc with ⟨fs, n1, n2⟩
  simp only [reconstructStep]
  split
  · rfl
  · split
    · rfl
    · split
      · split
        · next fs2 hcopy =>
          obtain ⟨c, hrd, rfl⟩ := FS.copyFileFS_eq_some hcopy
          rfl
        · rfl
      · rfl

lemma reconstructStep_dirs_mono (bp : Path) (pp : Option Path)
    (acc : FS × Nat × Nat) (f : ManifestFile) (d : Path) (hd : d ∈ acc.1.dirs) :
    d ∈ ((reconstructStep bp pp acc f).1).dirs := by
  rcases acc with ⟨fs, n1, n2⟩
  simp only [reconstructStep]
  split
  · exact hd
  · split
    · exact hd
    · split
      · split
        · next fs2 hcopy =>
          obtain ⟨c, hrd, rfl⟩ := FS.copyFileFS_eq_some hcopy
          exact List.mem_cons_of_mem _ hd
        · exact List.mem_cons_of_mem _ hd
      · exact hd

lemma foldl_reconstructStep_manifests (bp : Path) (pp : Option Path)
    (files : List ManifestFile) (acc : FS × Nat × Nat) :
    ((files.foldl (reconstructStep bp pp) acc).1).manifests = acc.1.manifests := by
  induction files generalizing acc with
  | nil => rfl
  | cons f rest ih => rw [List.foldl_cons, ih, reconstructStep_manifests]

lemma foldl_reconstructStep_dirs_mono (bp : Path) (pp : Option Path)
    (files : List ManifestFile) (acc : FS × Nat × Nat) (d : Path)
    (hd : d ∈ acc.1.dirs) :
    d ∈ ((files.foldl (reconstructStep bp pp) acc).1).dirs := by
  induction files generalizing acc with
  | nil => exact hd
  | cons f rest ih => exact ih _ (reconstructStep_dirs_mono _ _ _ _ _ hd)

lemma reconstructStep_inv (sp : Path) (bn : String) (pb : Option String)
    (mfiles : List ManifestFile) (fs0 : FS)
    (acc : FS × Nat × Nat) (f : ManifestFile) (hf : f ∈ mfiles)
    (hread : ∀ X h, acc.1.readFileBytes (sp ++ ["backups", X, "files", h]) =
        fs0.readFileBytes (sp ++ ["backups", X, "files", h]))
    (hprov : ∀ p c, (p, c) ∈ acc.1.files →
        (p, c) ∈ fs0.files ∨ MaterializedFrom sp bn pb mfiles fs0 p c) :
    (∀ X h, ((reconstructStep (sp ++ ["backups", bn])
          (pb.map fun q => sp ++ ["backups", q]) acc f).1).readFileBytes
        (sp ++ ["backups", X, "files", h]) =
        fs0.readFileBytes (sp ++ ["backups", X, "files", h])) ∧
    (∀ p c, (p, c) ∈ ((reconstructStep (sp ++ ["backups", bn])
          (pb.map fun q => sp ++ ["backups", q]) acc f).1).files →
        (p, c) ∈ fs0.files ∨ MaterializedFrom sp bn pb mfiles fs0 p c) := by
  rcases acc with ⟨fs, n1, n2⟩
  simp only [reconstructStep]
  split
  · exact ⟨hread, hprov⟩
  next hdel =>
    split
    · exact ⟨hread, hprov⟩
    next src hsrc =>
      have hsrc_shape : ∃ X, src = sp ++ ["backups", X, "files", f.file_hash] ∧
          sourcePathFor sp bn pb f = some src := by
        cases hfs : f.source with
        | current =>
          rw [hfs] at hsrc
          have hsrc' : sp ++ ["backups", bn] ++ ["files", f.file_hash] = src := by
            simpa using hsrc
          refine ⟨bn, ?_, ?_⟩
          · rw [← hsrc']; simp
          · simp only [sourcePathFor, hfs]
            rw [← hsrc']; simp
        | parent =>
          rw [hfs] at hsrc
          cases hpb : pb with
          | none => rw [hpb] at hsrc; simp at hsrc
          | some X =>
            rw [hpb] at hsrc
            have hsrc' : sp ++ ["backups", X] ++ ["files", f.file_hash] = src := by
              simpa using hsrc
            refine ⟨X, ?_, ?_⟩
            · rw [← hsrc']; simp
            · simp only [sourcePathFor, hfs, hpb, Option.map_some]
              rw [← hsrc']; simp
      obtain ⟨X0, hsrc_eq, hsrc_for⟩ := hsrc_shape
      split
      · split
        · next fs2 hcopy =>
          obtain ⟨c, hrd, rfl⟩ := FS.copyFileFS_eq_some hcopy
          have hrd0 : fs0.readFileBytes src = some c := by
            rw [← hrd, hsrc_eq]
            exact (hread X0 f.file_hash).symm
          constructor
          · intro X h
            rw [readFileBytes_writeFileBytes_ne]
            · exact hread X h
            · intro habs
              exact reconWrite_ne_store sp bn X h f.relative_path
                (by simpa [List.append_assoc] using habs.symm)
          · intro p c' hp
            rcases List.mem_cons.mp hp with heq | hmem
            · rw [Prod.mk.injEq] at heq
              obtain ⟨rfl, rfl⟩ := heq
              right
              refine ⟨f, hf, hdel, by simp, src, hsrc_for, hrd0⟩
            · exact hprov p c' (List.mem_of_mem_filter hmem)
        · exact ⟨hread, hprov⟩
      · exact ⟨hread, hprov⟩

lemma foldl_reconstructStep_inv (sp : Path) (bn : String) (pb : Option String)
    (mfiles : List ManifestFile) (fs0 : FS)
    (files : List ManifestFile) (hsub : ∀ f ∈ files, f ∈ mfiles)
    (acc : FS × Nat × Nat)
    (hread : ∀ X h, acc.1.readFileBytes (sp ++ ["backups", X, "files", h]) =
        fs0.readFileBytes (sp ++ ["backups", X, "files", h]))
    (hprov : ∀ p c, (p, c) ∈ acc.1.files →
        (p, c) ∈ fs0.files ∨ MaterializedFrom sp bn pb mfiles fs0 p c) :
    ∀ p c, (p, c) ∈ ((files.foldl (reconstructStep (sp ++ ["backups", bn])
        (pb.map fun q => sp ++ ["backups", q])) acc).1).files →
      (p, c) ∈ fs0.files ∨ MaterializedFrom sp bn pb mfiles fs0 p c := by
  induction files generalizing acc with
  | nil => exact hprov
  | cons f rest ih =>
    rw [List.foldl_cons]
    have hstep := reconstructStep_inv sp bn pb mfiles fs0 acc f
      (hsub f (List.mem_cons_self f rest)) hread hprov
    exact ih (fun g hg => hsub g (List.mem_cons_of_mem f hg)) _ hstep.1 hstep.2

end ReconstructLemmas

/-- C4: `reconstructBackup` excludes every `deleted` manifest entry from
the materialized output, and every file it materializes comes from a
non-deleted entry whose bytes are fetched from
`{backupPath}/files/{file_hash}` when `source == current` and from the
parent backup's `files/{file_hash}` when `source == parent`
(see `sourcePathFor`). -/
theorem reconstructBackup_deleted_excluded_and_sources
    (fs : FS) (sp : Path) (bn : String) (manifest : BackupManifest)
    (hman : fs.readManifest (sp ++ ["backups", bn]) = some manifest)
    (hnew : fs.existsPath ((sp ++ ["backups", bn]) ++ ["RECONSTRUCTED"]) = false) :
    ∃ r : ReconResult, reconstructBackup fs sp bn = Except.ok r ∧
      r.path = (sp ++ ["backups", bn]) ++ ["RECONSTRUCTED"] ∧
      ∀ p c, (p, c) ∈ r.fs.files → (p, c) ∉ fs.files →
        MaterializedFrom sp bn manifest.parent_backup manifest.files fs p c := by
  simp only [reconstructBackup, hman, hnew, Bool.false_eq_true, if_false]
  refine ⟨_, rfl, rfl, ?_⟩
  intro p c hp hnot
  have hinv := foldl_reconstructStep_inv sp bn manifest.parent_backup manifest.files fs
    manifest.files (fun f hf => hf)
    (fs.mkdirRec ((sp ++ ["backups", bn]) ++ ["RECONSTRUCTED"]), 0, 0)
    (fun X h => rfl) (fun q d hq => Or.inl hq) p c hp
  rcases hinv with hold | hmat
  · exact absurd hold hnot
  · exact hmat

/-- Manifest used by the C4 witness: one `added`/`current` entry. -/
def c4manifest : BackupManifest :=
  { backup_name := "b1", created_at := "2026-01-01T00:00:00Z", project_name := "proj",
    parent_backup := none, is_full_backup := true, file_count := 1, total_size := 2,
    files := [⟨["a.txt"], "h1", 2, ChangeType.added, Source.current⟩] }

/-- Filesystem used by the C4 witness: the backup `b1` stores `h1` and its
manifest; nothing is reconstructed yet. -/
def c4fs : FS :=
  { dirs := [["backups", "b1", "files"]],
    files := [(["backups", "b1", "files", "h1"], [10, 20])],
    manifests := [(["backups", "b1", "manifest.json"], c4manifest)] }

/-- Witness for `reconstructBackup_deleted_excluded_and_sources` at a
concrete backup. -/
theorem reconstructBackup_deleted_excluded_and_sources_witness :
    c4fs.readManifest ([] ++ ["backups", "b1"]) = some c4manifest ∧
    c4fs.existsPath (([] ++ ["backups", "b1"]) ++ ["RECONSTRUCTED"]) = false ∧
    (∃ r : ReconResult, reconstructBackup c4fs [] "b1" = Except.ok r ∧
      r.path = ([] ++ ["backups", "b1"]) ++ ["RECONSTRUCTED"] ∧
      ∀ p c, (p, c) ∈ r.fs.files → (p, c) ∉ c4fs.files →
        MaterializedFrom [] "b1" c4manifest.parent_backup c4manifest.files c4fs p c) :=
  ⟨by decide, by decide,
    reconstructBackup_deleted_excluded_and_sources c4fs [] "b1" c4manifest
      (by decide) (by decide)⟩

/-- C5: reconstructing the same backup name twice is safe and idempotent —
when the first call succeeds, the second call succeeds with the same
materialized path and a byte-identical filesystem (it returns the cached
`RECONSTRUCTED` directory without copying anything: both counters are 0). -/
theorem reconstructBackup_idempotent (fs : FS) (sp : Path) (bn : String)
    (r : ReconResult) (h : reconstructBackup fs sp bn = Except.ok r) :
    reconstructBackup r.fs sp bn = Except.ok ⟨r.path, r.fs, 0, 0⟩ := by
  cases hman : fs.readManifest (sp ++ ["backups", bn]) with
  | none =>
    simp only [reconstructBackup, hman] at h
    exact absurd h (by simp)
  | some m =>
    simp only [reconstructBackup, hman] at h
    cases hex : fs.existsPath ((sp ++ ["backups", bn]) ++ ["RECONSTRUCTED"]) with
    | true =>
      rw [hex] at h
      simp only [if_true] at h
      have hr := (Except.ok.inj h).symm
      subst hr
      simp only [reconstructBackup, hman, hex, if_true]
    | false =>
      rw [hex] at h
      simp only [Bool.false_eq_true, if_false] at h
      set F := m.files.foldl (reconstructStep (sp ++ ["backups", bn])
          (m.parent_backup.map fun p => sp ++ ["backups", p]))
          (fs.mkdirRec ((sp ++ ["backups", bn]) ++ ["RECONSTRUCTED"]), 0, 0) with hF
      have hr := (Except.ok.inj h).symm
      subst hr
      have hmanifests : F.1.manifests = fs.manifests := by
        rw [hF]; exact foldl_reconstructStep_manifests _ _ _ _
      have hman2 : F.1.readManifest (sp ++ ["backups", bn]) = some m := by
        unfold FS.readManifest
        rw [hmanifests]
        exact hman
      have hmem : (sp ++ ["backups", bn]) ++ ["RECONSTRUCTED"] ∈ F.1.dirs := by
        rw [hF]
        exact foldl_reconstructStep_dirs_mono _ _ _ _ _ (List.mem_cons_self _ _)
      have hex2 : F.1.existsPath ((sp ++ ["backups", bn]) ++ ["RECONSTRUCTED"]) = true := by
        unfold FS.existsPath
        have hcont : F.1.dirs.contains ((sp ++ ["backups", bn]) ++ ["RECONSTRUCTED"]) = true :=
          List.elem_eq_true_of_mem hmem
        rw [hcont, Bool.true_or]
      simp only [reconstructBackup]
      rw [hman2]
      rw [hex2]
      simp only [if_true]

/-- Manifest used by the C5 witness. -/
def c5manifest : BackupManifest :=
  { backup_name := "b1", created_at := "t", project_name := "proj",
    parent_backup := none, is_full_backup := true, file_count := 1, total_size := 2,
    files := [⟨["a.txt"], "h1", 2, ChangeType.added, Source.current⟩] }

/-- Filesystem used by the C5 witness before the first reconstruction. -/
def c5fs : FS :=
  { dirs := [["backups", "b1", "files"]],
    files := [(["backups", "b1", "files", "h1"], [10, 20])],
    manifests := [(["backups", "b1", "manifest.json"], c5manifest)] }

/-- The result of the first reconstruction in the C5 witness. -/
def c5result : ReconResult :=
  { path := ["backups", "b1", "RECONSTRUCTED"],
    fs := { dirs := [["backups", "b1", "RECONSTRUCTED"],
                     ["backups", "b1", "RECONSTRUCTED"],
                     ["backups", "b1", "files"]],
            files := [(["backups", "b1", "RECONSTRUCTED", "a.txt"], [10, 20]),
                      (["backups", "b1", "files", "h1"], [10, 20])],
            manifests := [(["backups", "b1", "manifest.json"], c5manifest)] },
    filesReconstructed := 1,
    filesSkipped := 0 }

/-- Witness for `reconstructBackup_idempotent`: after a concrete first
reconstruction the second call returns the same path and filesystem with
zero copies. -/
theorem reconstructBackup_idempotent_witness :
    reconstructBackup c5fs [] "b1" = Except.ok c5result ∧
    reconstructBackup c5result.fs [] "b1" =
      Except.ok ⟨c5result.path, c5result.fs, 0, 0⟩ :=
  ⟨by rfl, reconstructBackup_idempotent c5fs [] "b1" c5result (by rfl)⟩

/-- C2 (amended): `reconstructBackup` resolves a `source == parent` entry
with a *single hop* to the immediate parent backup's `files/{file_hash}`;
it does not walk the parent chain.  When the immediate parent does not
hold the bytes, the entry is skipped (`filesSkipped` is incremented) and
the file is omitted from the reconstructed output, even if an ancestor
further up the chain stores it. -/
theorem reconstructBackup_parent_single_hop
    (fs : FS) (sp : Path) (bn pb : String) (manifest : BackupManifest) (f : ManifestFile)
    (hman : fs.readManifest (sp ++ ["backups", bn]) = some manifest)
    (hnew : fs.existsPath ((sp ++ ["backups", bn]) ++ ["RECONSTRUCTED"]) = false)
    (hfiles : manifest.files = [f])
    (hnd : f.change_type ≠ ChangeType.deleted)
    (hsrc : f.source = Source.parent)
    (hpb : manifest.parent_backup = some pb)
    (habsent : fs.existsPath ((sp ++ ["backups", pb]) ++ ["files", f.file_hash]) = false) :
    reconstructBackup fs sp bn =
      Except.ok ⟨(sp ++ ["backups", bn]) ++ ["RECONSTRUCTED"],
        fs.mkdirRec ((sp ++ ["backups", bn]) ++ ["RECONSTRUCTED"]), 0, 1⟩ := by
  simp only [reconstructBackup, hman, hnew, Bool.false_eq_true, if_false, hfiles, hpb,
    List.foldl_cons, List.foldl_nil]
  simp only [reconstructStep, if_neg hnd, hsrc, Option.map_some']
  have habsent1 : (fs.mkdirRec ((sp ++ ["backups", bn]) ++ ["RECONSTRUCTED"])).existsPath
      ((sp ++ ["backups", pb]) ++ ["files", f.file_hash]) = false := by
    simp only [FS.existsPath, FS.mkdirRec, Bool.or_eq_false_iff] at habsent ⊢
    refine ⟨?_, habsent.2⟩
    have hne : ((sp ++ ["backups", pb]) ++ ["files", f.file_hash]) ≠
        ((sp ++ ["backups", bn]) ++ ["RECONSTRUCTED"]) := by
      intro heq
      have hlen := congrArg List.length heq
      simp [List.length_append] at hlen
    simp only [List.contains_cons]
    rw [Bool.or_eq_false_iff]
    constructor
    · exact beq_false_of_ne hne
    · exact habsent.1
  rw [habsent1]
  simp

/-- Manifest of the root full backup `b1` in the C2 counterexample. -/
def c2manifest1 : BackupManifest :=
  { backup_name := "b1", created_at := "t0", project_name := "proj",
    parent_backup := none, is_full_backup := true, file_count := 1, total_size := 2,
    files := [⟨["a.txt"], "h", 2, ChangeType.added, Source.current⟩] }

/-- Manifest of the differential backup `b2` (parent `b1`): `a.txt`
unchanged, bytes left with the parent. -/
def c2manifest2 : BackupManifest :=
  { backup_name := "b2", created_at := "t1", project_name := "proj",
    parent_backup := some "b1", is_full_backup := false, file_count := 1, total_size := 2,
    files := [⟨["a.txt"], "h", 2, ChangeType.unchanged, Source.parent⟩] }

/-- Manifest of the differential backup `b3` (parent `b2`): `a.txt` still
unchanged; its bytes live only in the root backup `b1`. -/
def c2manifest3 : BackupManifest :=
  { backup_name := "b3", created_at := "t2", project_name := "proj",
    parent_backup := some "b2", is_full_backup := false, file_count := 1, total_size := 2,
    files := [⟨["a.txt"], "h", 2, ChangeType.unchanged, Source.parent⟩] }

/-- Chain `b1 ← b2 ← b3`: only the root full backup `b1` physically stores
the bytes of `a.txt` (hash `h`); `b2`'s store is empty. -/
def c2fs : FS :=
  { dirs := [],
    files := [(["backups", "b1", "files", "h"], [104, 105])],
    manifests := [(["backups", "b1", "manifest.json"], c2manifest1),
                  (["backups", "b2", "manifest.json"], c2manifest2),
                  (["backups", "b3", "manifest.json"], c2manifest3)] }

/-- C2 counterexample to the claim as stated: reconstructing `b3`, whose
only entry has `source == parent` with the bytes stored two links up the
chain (in `b1`, and readable there — first conjunct), materializes
*nothing*: zero files are reconstructed, the entry is skipped, and the
output filesystem contains no file under `RECONSTRUCTED`.  The code does
not walk `parent_backup` links beyond the immediate parent. -/
theorem reconstructBackup_no_chain_walk_counterexample :
    c2fs.readFileBytes ["backups", "b1", "files", "h"] = some [104, 105] ∧
    reconstructBackup c2fs [] "b3" =
      Except.ok ⟨["backups", "b3", "RECONSTRUCTED"],
        { c2fs with dirs := [["backups", "b3", "RECONSTRUCTED"]] }, 0, 1⟩ :=
  ⟨by rfl, by rfl⟩

/-- Witness for `reconstructBackup_parent_single_hop` at the concrete
chain `b1 ← b2 ← b3`: reconstructing `b3` skips its only entry because the
bytes are not in the immediate parent `b2`. -/
theorem reconstructBackup_parent_single_hop_witness :
    reconstructBackup c2fs [] "b3" =
      Except.ok ⟨([] ++ ["backups", "b3"]) ++ ["RECONSTRUCTED"],
        c2fs.mkdirRec (([] ++ ["backups", "b3"]) ++ ["RECONSTRUCTED"]), 0, 1⟩ :=
  reconstructBackup_parent_single_hop c2fs [] "b3" "b2" c2manifest3
    ⟨["a.txt"], "h", 2, ChangeType.unchanged, Source.parent⟩
    (by rfl) (by rfl) (by rfl) (by decide) (by rfl) (by rfl) (by decide)

lemma existsPath_of_readFileBytes {fs : FS} {p : Path} {c : List Nat}
    (h : fs.readFileBytes p = some c) : fs.existsPath p = true := by
  unfold FS.readFileBytes at h
  cases hf : fs.files.find? (fun e => e.1 == p) with
  | none => rw [hf] at h; cases h
  | some e =>
    have hmem := List.mem_of_find?_eq_some hf
    have hp := List.find?_some hf
    unfold FS.existsPath
    have hany : (fs.files.any fun e => e.1 == p) = true := List.any_of_mem hmem hp
    rw [hany, Bool.or_true]

/-- C6: within a single backup, two source files with identical byte
content and hence the same content hash are stored as exactly one physical
object at `{backupPath}/files/{fileHash}`: the first `copyFileToBackup`
writes it, the second finds the destination already present, copies
nothing and leaves the filesystem unchanged. -/
theorem copyFileToBackup_dedup (fs : FS) (s1 s2 bp : Path) (h : String) (c : List Nat)
    (h1 : fs.readFileBytes s1 = some c) (h2 : fs.readFileBytes s2 = some c)
    (hdest : fs.existsPath (bp ++ ["files", h]) = false) :
    ∃ fs1 : FS, copyFileToBackup fs s1 h bp = Except.ok (fs1, bp ++ ["files", h]) ∧
      copyFileToBackup fs1 s2 h bp = Except.ok (fs1, bp ++ ["files", h]) ∧
      fs1.files.filter (fun e => e.1 == bp ++ ["files", h]) = [(bp ++ ["files", h], c)] := by
  have hex1 : fs.existsPath s1 = true := existsPath_of_readFileBytes h1
  have hex2 : fs.existsPath s2 = true := existsPath_of_readFileBytes h2
  refine ⟨fs.writeFileBytes (bp ++ ["files", h]) c, ?_, ?_, ?_⟩
  · simp only [copyFileToBackup, hex1, hdest, h1]
    simp
  · have hs2ne : s2 ≠ bp ++ ["files", h] := by
      intro heq
      rw [heq] at hex2
      rw [hex2] at hdest
      exact absurd hdest (by simp)
    have hstable := readFileBytes_writeFileBytes_ne fs (bp ++ ["files", h]) s2 c hs2ne
    have hex2' : (fs.writeFileBytes (bp ++ ["files", h]) c).existsPath s2 = true :=
      existsPath_of_readFileBytes (by rw [hstable]; exact h2)
    have hexdest : (fs.writeFileBytes (bp ++ ["files", h]) c).existsPath
        (bp ++ ["files", h]) = true := by
      unfold FS.existsPath FS.writeFileBytes
      dsimp only
      have hany : (((bp ++ ["files", h], c) ::
          fs.files.filter fun e => e.1 != bp ++ ["files", h]).any
          fun e => e.1 == bp ++ ["files", h]) = true := by
        simp [List.any_cons]
      rw [hany, Bool.or_true]
    simp only [copyFileToBackup, hex2', hexdest]
    simp
  · unfold FS.writeFileBytes
    dsimp only
    rw [List.filter_cons]
    have hhead : (((bp ++ ["files", h], c) : Path × List Nat).1 ==
        bp ++ ["files", h]) = true := by simp
    rw [hhead]
    simp only [if_true]
    rw [List.filter_filter]
    have hnil : (fs.files.filter fun a =>
        (a.1 == bp ++ ["files", h]) && (a.1 != bp ++ ["files", h])) = [] := by
      refine List.filter_eq_nil_iff.mpr ?_
      intro a _
      by_cases he : a.1 = bp ++ ["files", h] <;> simp [he]
    rw [hnil]

/-- Filesystem for the C6 witness: two distinct source files with the same
byte content, and an empty backup store. -/
def c6fs : FS :=
  { dirs := [["backups", "b1", "files"]],
    files := [(["src", "x.txt"], [1, 2]), (["src", "y.txt"], [1, 2])],
    manifests := [] }

/-- Witness for `copyFileToBackup_dedup` at two concrete byte-identical
files. -/
theorem copyFileToBackup_dedup_witness :
    ∃ fs1 : FS,
      copyFileToBackup c6fs ["src", "x.txt"] "h1" ["backups", "b1"] =
        Except.ok (fs1, ["backups", "b1"] ++ ["files", "h1"]) ∧
      copyFileToBackup fs1 ["src", "y.txt"] "h1" ["backups", "b1"] =
        Except.ok (fs1, ["backups", "b1"] ++ ["files", "h1"]) ∧
      fs1.files.filter (fun e => e.1 == ["backups", "b1"] ++ ["files", "h1"]) =
        [(["backups", "b1"] ++ ["files", "h1"], [1, 2])] :=
  copyFileToBackup_dedup c6fs ["src", "x.txt"] ["src", "y.txt"] ["backups", "b1"]
    "h1" [1, 2] (by rfl) (by rfl) (by rfl)

/-- A wall-clock instant at millisecond precision, as observed by
`new Date()` in `generateBackupName` (`backupService.ts`). -/
structure DateTime where
  year : Nat
  month : Nat
  day : Nat
  hour : Nat
  minute : Nat
  second : Nat
  millisecond : Nat
deriving DecidableEq, Repr

/-- Two-digit zero padding used by the date/time formatting of
`toISOString` / `toTimeString`. -/
def pad2 (n : Nat) : String :=
  if n < 10 then "0" ++ toString n else toString n

/-- `BackupService.generateBackupName` (`backupService.ts`):
`{projectName}_{YYYY-MM-DD}_{HH-MM-SS}` built from
`toISOString().split('T')[0]` and `toTimeString().split(' ')[0]` with `:`
replaced by `-`.  The name depends only on the wall clock truncated to
seconds; the millisecond field is never consulted and no disambiguating
suffix is appended. -/
def generateBackupName (projectName : String) (now : DateTime) : String :=
  let date := toString now.year ++ "-" ++ pad2 now.month ++ "-" ++ pad2 now.day
  let time := pad2 now.hour ++ "-" ++ pad2 now.minute ++ "-" ++ pad2 now.second
  projectName ++ "_" ++ date ++ "_" ++ time

/-- C7: two backup names generated for the same project name at two
*distinct* instants of the same second are identical — `generateBackupName`
appends no disambiguator, so the collision is not resolved and the second
backup reuses the first one's directory (and `mkdir { recursive: true }` in
`createBackupDirectory` does not fail on the existing directory). -/
theorem generateBackupName_same_second_collision :
    generateBackupName "proj" ⟨2026, 10, 12, 10, 0, 0, 100⟩ =
      generateBackupName "proj" ⟨2026, 10, 12, 10, 0, 0, 900⟩ ∧
    generateBackupName "proj" ⟨2026, 10, 12, 10, 0, 0, 100⟩ =
      "proj_2026-10-12_10-00-00" ∧
    (⟨2026, 10, 12, 10, 0, 0, 100⟩ : DateTime) ≠ ⟨2026, 10, 12, 10, 0, 0, 900⟩ :=
  ⟨rfl, rfl, by decide⟩

/-- Result of executing the platform copy command in `trackFile`
(`storage.ts`): an exit code (`null` possible) or a thrown exception. -/
inductive CopyOutcome where
  | exited (code : Option Int)
  | threw (msg : String)
deriving DecidableEq, Repr

/-- The backup-related columns of the `file_metadata` row inserted by
`trackFile`, together with the session linkage. -/
structure FileMetadataRow where
  session_id : String
  file_path : String
  file_name : String
  backup_name : Option String
  is_full_backup : Nat
deriving DecidableEq, Repr

/-- Exit-code normalization in `trackFile`'s Windows branches
(`storage.ts`): `if (output.code !== null && output.code <= 7)
output.code = 0` — robocopy reports 0–7 on success. Non-Windows (rsync)
codes pass through unchanged. -/
def normalizeCode (os : String) (code : Option Int) : Option Int :=
  if os == "windows" then
    match code with
    | some c => if c ≤ 7 then some 0 else some c
    | none => none
  else code

/-- The backup bookkeeping of `StorageService.trackFile` (`storage.ts`):
unless `skipBackup`, run the platform copy; a (normalized) exit code of 0
records the generated backup name with `is_full_backup = 1`; a failing
exit code or a thrown exception records `backup_name = null` and
`is_full_backup = 0`.  The `file_metadata` row is inserted in every case
(the folder and file branches implement identical failure handling). -/
def trackFile (sessionId filePath fileName : String) (skipBackup : Bool)
    (os : String) (now : DateTime) (outcome : CopyOutcome) : FileMetadataRow :=
  let backupResult : Option String × Nat :=
    if skipBackup then (none, 0)
    else
      match outcome with
      | CopyOutcome.threw _ => (none, 0)
      | CopyOutcome.exited code =>
        if normalizeCode os code == some 0 then
          (some (generateBackupName fileName now), 1)
        else (none, 0)
  { session_id := sessionId, file_path := filePath, file_name := fileName,
    backup_name := backupResult.1, is_full_backup := backupResult.2 }

/-- C8 counterexample to the claim as stated: on Windows, robocopy exit
code 3 is a *non-zero* exit, yet `trackFile` records the file as backed up
(`backup_name` set, `is_full_backup = 1`) — the source normalizes robocopy
codes 0–7 to success, so "exits non-zero" is not the failure condition. -/
theorem trackFile_windows_nonzero_exit_counterexample :
    (trackFile "s1" "/p/proj" "proj" false "windows" ⟨2026, 10, 12, 10, 0, 0, 0⟩
        (CopyOutcome.exited (some 3))).backup_name =
      some "proj_2026-10-12_10-00-00" ∧
    (trackFile "s1" "/p/proj" "proj" false "windows" ⟨2026, 10, 12, 10, 0, 0, 0⟩
        (CopyOutcome.exited (some 3))).is_full_backup = 1 ∧
    some (3 : Int) ≠ some 0 :=
  ⟨rfl, rfl, by decide⟩

/-- C8 (amended): when backup capture fails during `trackFile` — the copy
command throws, or exits with a *failure* code (on Windows: `null` or
`≥ 8`, robocopy's 0–7 being success codes; elsewhere: anything other than
0) — the file-metadata row is still inserted with its session linkage, but
marked not backed up: `backup_name = null`, `is_full_backup = 0`. -/
theorem trackFile_failed_backup_marked
    (sessionId filePath fileName os : String) (now : DateTime)
    (outcome : CopyOutcome)
    (hfail : (∃ msg, outcome = CopyOutcome.threw msg) ∨
      (∃ code, outcome = CopyOutcome.exited code ∧
        ((os = "windows" ∧ (code = none ∨ ∃ c, code = some c ∧ 8 ≤ c)) ∨
          (os ≠ "windows" ∧ code ≠ some 0)))) :
    (trackFile sessionId filePath fileName false os now outcome).session_id = sessionId ∧
    (trackFile sessionId filePath fileName false os now outcome).backup_name = none ∧
    (trackFile sessionId filePath fileName false os now outcome).is_full_backup = 0 := by
  rcases hfail with ⟨msg, rfl⟩ | ⟨code, rfl, hcode⟩
  · exact ⟨rfl, rfl, rfl⟩
  · have hne : (normalizeCode os code == some 0) = false := by
      rcases hcode with ⟨hwin, hnul | ⟨c, rfl, hc⟩⟩ | ⟨hos, hne0⟩
      · subst hnul
        simp [normalizeCode, hwin]
      · have h7 : ¬ c ≤ 7 := by omega
        have hc0 : c ≠ 0 := by omega
        simp [normalizeCode, hwin, h7, hc0]
      · have hosb : (os == "windows") = false := beq_false_of_ne hos
        simp [normalizeCode, hosb]
        exact hne0
    simp [trackFile, hne]

/-- Witness for `trackFile_failed_backup_marked` at a concrete failing
rsync exit code on Linux. -/
theorem trackFile_failed_backup_marked_witness :
    ((∃ msg, CopyOutcome.exited (some 23) = CopyOutcome.threw msg) ∨
      (∃ code, CopyOutcome.exited (some 23) = CopyOutcome.exited code ∧
        (("linux" = "windows" ∧ (code = none ∨ ∃ c, code = some c ∧ 8 ≤ c)) ∨
          ("linux" ≠ "windows" ∧ code ≠ some 0)))) ∧
    ((trackFile "s1" "/p/proj" "proj" false "linux" ⟨2026, 10, 12, 10, 0, 0, 0⟩
        (CopyOutcome.exited (some 23))).session_id = "s1" ∧
      (trackFile "s1" "/p/proj" "proj" false "linux" ⟨2026, 10, 12, 10, 0, 0, 0⟩
        (CopyOutcome.exited (some 23))).backup_name = none ∧
      (trackFile "s1" "/p/proj" "proj" false "linux" ⟨2026, 10, 12, 10, 0, 0, 0⟩
        (CopyOutcome.exited (some 23))).is_full_backup = 0) :=
  ⟨Or.inr ⟨some 23, rfl, Or.inr ⟨by decide, by decide⟩⟩,
    trackFile_failed_backup_marked "s1" "/p/proj" "proj" "linux"
      ⟨2026, 10, 12, 10, 0, 0, 0⟩ (CopyOutcome.exited (some 23))
      (Or.inr ⟨some 23, rfl, Or.inr ⟨by decide, by decide⟩⟩)⟩

end DayTracker
